import Mathlib

/-!
Shallow embedding of the dns-endpoint-pool module: the pool manager with its
round-robin selection, endpoint-set reconciliation, the two eject-on-error
circuit-breaker policies (rolling failure window and failure rate), and the
fixed-capacity ring buffer they are built on.

Conventions of the embedding:
* JavaScript objects become records; mutation becomes functional update.
* Fields that the source attaches only later (state, buffer, errors, the
  reopen-timer handle) are Option-valued; a missing field is none.
* JavaScript numbers used as timestamps are Int; the failure-rate threshold
  failureRate * failureRateWindow is computed in ℚ.
* setTimeout / clearInterval are modelled by an explicit timer system: a
  counter of handles plus the list of live timers, each tagged with the
  identity (eid) of the endpoint its callback captured.  Object identity of
  endpoints is modelled by the eid field, assigned from a counter at
  construction time.
* In the ring buffer, advancing the write pointer with percent 0 yields NaN
  in JavaScript; a NaN pointer is modelled by offset = none, and the single
  "NaN" property of the backing array by the nanSlot field.
-/

namespace DnsEndpointPool

/-- Circuit breaker endpoint states. -/
inductive EPState where
  | CLOSED
  | HALF_OPEN_READY
  | HALF_OPEN_PENDING
  | OPEN
deriving DecidableEq, Repr

/-- Ring buffer: backing array of slots (none = empty slot), write pointer
(none models a NaN pointer), declared capacity, and the slot addressed by a
NaN pointer (the "NaN" property of the JavaScript array). -/
structure RingBuffer where
  buffer : List (Option Int)
  offset : Option Nat
  size : Nat
  nanSlot : Option Int
deriving DecidableEq, Repr

/-- Constructor: a backing array of .size. empty slots, pointer at 0. -/
def RingBuffer.init (size : Nat) : RingBuffer :=
  { buffer := List.replicate size none, offset := some 0, size := size, nanSlot := none }

/-- read(): the value at the write pointer (the slot the next write will
overwrite); with a NaN pointer, the NaN property slot. -/
def RingBuffer.read (b : RingBuffer) : Option Int :=
  match b.offset with
  | some i => b.buffer.getD i none
  | none => b.nanSlot

/-- write(val): store at the write pointer and advance it modulo size.  With
size 0 the advanced pointer is NaN (none); once NaN it stays NaN and stores
target the NaN property slot.  (At capacity 0 the very first write also lands
in index 0 of the backing array; the pointer, NaN from then on, never
addresses that slot again, so that store is dropped as unobservable.) -/
def RingBuffer.write (b : RingBuffer) (val : Int) : RingBuffer :=
  match b.offset with
  | some i =>
      { b with buffer := b.buffer.set i (some val),
               offset := if b.size = 0 then none else some ((i + 1) % b.size) }
  | none => { b with nanSlot := some val }

/-- Endpoint descriptor as delivered by the resolver: name and port. -/
structure EndpointInfo where
  name : String
  port : Nat
deriving DecidableEq, Repr

/-- Endpoint record.  name, port and url are set by the constructor; state,
buffer, errors and the reopen-timer handle are attached later by the policy
hooks (none = still undefined).  eid models JavaScript object identity. -/
structure Endpoint where
  name : String
  port : Nat
  url : String
  eid : Nat
  state : Option EPState
  buffer : Option RingBuffer
  errors : Option Int
  reopenTimeout : Option Nat
deriving DecidableEq, Repr

/-- new Endpoint(info): url is name ++ ":" ++ port; no breaker fields yet. -/
def Endpoint.make (info : EndpointInfo) (eid : Nat) : Endpoint :=
  { name := info.name, port := info.port,
    url := info.name ++ ":" ++ toString info.port,
    eid := eid, state := none, buffer := none, errors := none,
    reopenTimeout := none }

/-- A scheduled reopen timer: its handle and the identity of the endpoint
captured by its callback. -/
structure TimerEntry where
  id : Nat
  eid : Nat
deriving DecidableEq, Repr

/-- The ambient timer system: a fresh-handle counter and the live timers. -/
structure TimerSys where
  nextId : Nat
  live : List TimerEntry
deriving DecidableEq, Repr

/-- clearInterval(handle): drop the timer with that handle; clearing an
undefined handle is a no-op. -/
def TimerSys.clearTimer (ts : TimerSys) (h : Option Nat) : TimerSys :=
  match h with
  | some i => { ts with live := ts.live.filter (fun t => t.id ≠ i) }
  | none => ts

/-- setTimeout(callback, resetTimeout): allocate a fresh handle for a timer
whose callback captured the endpoint with identity eid. -/
def TimerSys.schedule (ts : TimerSys) (eid : Nat) : Nat × TimerSys :=
  (ts.nextId,
   { nextId := ts.nextId + 1, live := ts.live ++ [{ id := ts.nextId, eid := eid }] })

/-- Body of the reopen-timer callback: flip the captured endpoint to
HALF_OPEN_READY. -/
def reopenCallback (e : Endpoint) : Endpoint :=
  { e with state := some EPState.HALF_OPEN_READY }

/-- disableEndpoint: no-op when already OPEN; otherwise set state OPEN, clear
the previously stored timer handle, and schedule a fresh reopen timer, storing
its handle. -/
def disableEndpoint (e : Endpoint) (ts : TimerSys) : Endpoint × TimerSys :=
  if e.state = some EPState.OPEN then (e, ts)
  else
    let ts1 := ts.clearTimer e.reopenTimeout
    let p := ts1.schedule e.eid
    ({ e with state := some EPState.OPEN, reopenTimeout := some p.1 }, p.2)

/-- isInPool of both eject-on-error policies: usable iff CLOSED or
HALF_OPEN_READY. -/
def isInPool (e : Endpoint) : Bool :=
  e.state == some EPState.CLOSED || e.state == some EPState.HALF_OPEN_READY

/-- onEndpointSelected of both eject-on-error policies: a HALF_OPEN_READY
endpoint lets one request through and becomes HALF_OPEN_PENDING. -/
def onEndpointSelected (e : Endpoint) : Endpoint :=
  if e.state == some EPState.HALF_OPEN_READY then
    { e with state := some EPState.HALF_OPEN_PENDING }
  else e

/-- Rolling-window registration hook: state CLOSED, ring buffer of capacity
maxFailures - 1 holding failure timestamps. -/
def rollingOnEndpointRegistered (maxFailures : Nat) (e : Endpoint) : Endpoint :=
  { e with state := some EPState.CLOSED,
           buffer := some (RingBuffer.init (maxFailures - 1)) }

/-- Rolling-window feedback hook.  The now argument is the Date.now() value
at the call.  The branch for a missing buffer is unreachable under the pool
discipline (registration always attaches the buffer; the source would raise
there) and is modelled as a no-op. -/
def rollingOnEndpointReturned (failureWindow : Int) (now : Int)
    (e : Endpoint) (err : Bool) (ts : TimerSys) : Endpoint × TimerSys :=
  if err then
    if e.state = some EPState.OPEN then (e, ts)
    else
      match e.buffer with
      | none => (e, ts)
      | some b =>
        if b.size = 0 then disableEndpoint e ts
        else
          let oldestErrorTime := b.read
          let e1 := { e with buffer := some (b.write now) }
          let trip :=
            e.state == some EPState.HALF_OPEN_PENDING ||
              (match oldestErrorTime with
               | some t => decide (now - t ≤ failureWindow)
               | none => false)
          if trip then disableEndpoint e1 ts else (e1, ts)
  else
    if e.state = some EPState.HALF_OPEN_PENDING then
      ({ e with state := some EPState.CLOSED }, ts)
    else (e, ts)

/-- Rate-based registration hook: state CLOSED, ring buffer of capacity
failureRateWindow holding outcome flags, error count 0. -/
def rateOnEndpointRegistered (failureRateWindow : Nat) (e : Endpoint) : Endpoint :=
  { e with state := some EPState.CLOSED,
           buffer := some (RingBuffer.init failureRateWindow),
           errors := some 0 }

/-- Rate-based feedback hook.  maxErrorCount = failureRate * failureRateWindow
as in the source (computed in ℚ here).  An empty slot or a recorded 0 read
from the buffer is falsy, hence oldestStatus 0.  The branch for missing
buffer or errors fields is unreachable under the pool discipline and is
modelled as a no-op. -/
def rateOnEndpointReturned (failureRate : ℚ) (failureRateWindow : Nat)
    (e : Endpoint) (err : Bool) (ts : TimerSys) : Endpoint × TimerSys :=
  let maxErrorCount : ℚ := failureRate * failureRateWindow
  match e.buffer, e.errors with
  | some b, some errs =>
    let state := e.state
    let newStatus : Int := if err then 1 else 0
    let oldestStatus : Int :=
      match b.read with
      | some v => if v = 0 then 0 else 1
      | none => 0
    let newErrors : Int := errs + newStatus - oldestStatus
    let e1 := { e with buffer := some (b.write newStatus), errors := some newErrors }
    if err && (state == some EPState.HALF_OPEN_PENDING ||
               decide (maxErrorCount ≤ (newErrors : ℚ))) then
      disableEndpoint e1 ts
    else if !err && state == some EPState.HALF_OPEN_PENDING then
      ({ e1 with state := some EPState.CLOSED }, ts)
    else (e1, ts)
  | _, _ => (e, ts)

/-- A pool policy: the three hooks the PoolManager constructor takes which
the manager itself invokes.  (The feedback hook onEndpointReturned is bound
per endpoint as its callback; feedback is modelled by applying the policy
feedback function directly, so it is not part of this record.) -/
structure Policy where
  isInPool : Endpoint → Bool
  onEndpointSelected : Endpoint → Endpoint
  onEndpointRegistered : Endpoint → Endpoint

/-- PoolManager state: the endpoint collection, the rotation cursor
(endpointOffset), and the counter supplying object identities for endpoints
constructed by updateEndpoints. -/
structure PoolManager where
  endpoints : List Endpoint
  endpointOffset : Nat
  nextEid : Nat
deriving DecidableEq, Repr

/-- hasEndpoints(): collection non-empty. -/
def PoolManager.hasEndpoints (pm : PoolManager) : Bool :=
  decide (0 < pm.endpoints.length)

/-- The selection scan: try candidates at offsets (c + i) % length for
i = 0, 1, ..., consuming one unit of fuel per candidate; the caller passes
fuel = length, giving at most one full pass. -/
def scanFrom (p : Policy) (es : List Endpoint) (c : Nat) : Nat → Nat → Option Nat
  | _, 0 => none
  | i, Nat.succ f =>
    match es[(c + i) % es.length]? with
    | some e => if p.isInPool e then some ((c + i) % es.length) else scanFrom p es c (i + 1) f
    | none => none

/-- getNextEndpoint(): scan for the first usable candidate starting at the
rotation cursor; on a hit, apply the on-selected side effect (the collection
holds the same, now mutated, object), advance the cursor to one past the
selected offset and return the endpoint; otherwise return none. -/
def PoolManager.getNextEndpoint (p : Policy) (pm : PoolManager) :
    Option Endpoint × PoolManager :=
  match scanFrom p pm.endpoints pm.endpointOffset 0 pm.endpoints.length with
  | some off =>
    match pm.endpoints[off]? with
    | some e =>
      let e1 := p.onEndpointSelected e
      (some e1,
       { pm with endpoints := pm.endpoints.set off e1, endpointOffset := off + 1 })
    | none => (none, pm)
  | none => (none, pm)

/-- findWhere(newEndpoints, url): first element with that url. -/
def findWhereUrl (url : String) : List Endpoint → Option Endpoint
  | [] => none
  | e :: rest => if e.url == url then some e else findWhereUrl url rest

/-- without(news, m): remove m (all occurrences; fresh endpoints have
distinct eids, so exactly the found one). -/
def without (news : List Endpoint) (m : Endpoint) : List Endpoint :=
  news.filter (fun e => e ≠ m)

/-- The reverse walk of updateEndpoints over the existing collection.  The
source iterates indices from high to low, so the tail (higher indices) is
processed before the head; each existing endpoint that finds a candidate
with its url keeps its place and consumes that candidate, the rest are
spliced out.  Returns (survivors, remaining candidates). -/
def reconcileRev : List Endpoint → List Endpoint → List Endpoint × List Endpoint
  | [], news => ([], news)
  | e :: rest, news =>
      let r := reconcileRev rest news
      match findWhereUrl e.url r.2 with
      | some m => (e :: r.1, without r.2 m)
      | none => r

/-- The fresh Endpoint objects built from the incoming descriptors, with
object identities allocated from the manager counter.  (The per-endpoint
callback binding is modelled by applying the policy feedback function
directly.)  No timer of a removed endpoint is touched by updateEndpoints. -/
def newEndpointsOf (nextEid : Nat) (infos : List EndpointInfo) : List Endpoint :=
  ((List.range infos.length).zip infos).map
    (fun q => Endpoint.make q.2 (nextEid + q.1))

/-- updateEndpoints(endpoints): build fresh Endpoint objects from the
descriptors (with fresh identities), reconcile against the existing
collection, register the truly new ones via the policy hook and append them. -/
def PoolManager.updateEndpoints (p : Policy) (pm : PoolManager)
    (infos : List EndpointInfo) : PoolManager :=
  let newEndpoints := newEndpointsOf pm.nextEid infos
  let r := reconcileRev pm.endpoints newEndpoints
  let registered := r.2.map p.onEndpointRegistered
  { pm with endpoints := r.1 ++ registered, nextEid := pm.nextEid + infos.length }

/-- getStatus() result. -/
structure PoolStatus where
  total : Nat
  unhealthy : Nat
deriving DecidableEq, Repr

/-- getStatus(): total is the collection size; unhealthy folds the usable
predicate over the collection, counting the endpoints failing it.  The
source reads but never writes the manager or the endpoints here. -/
def PoolManager.getStatus (p : Policy) (pm : PoolManager) : PoolStatus :=
  { total := pm.endpoints.length,
    unhealthy :=
      pm.endpoints.foldl (fun badCount e => badCount + (if p.isInPool e then 0 else 1)) 0 }

/-- The eject-on-error policy record under the rolling-window configuration. -/
def rollingPolicy (maxFailures : Nat) : Policy :=
  { isInPool := isInPool,
    onEndpointSelected := onEndpointSelected,
    onEndpointRegistered := rollingOnEndpointRegistered maxFailures }

/-- The eject-on-error policy record under the rate configuration. -/
def ratePolicy (failureRateWindow : Nat) : Policy :=
  { isInPool := isInPool,
    onEndpointSelected := onEndpointSelected,
    onEndpointRegistered := rateOnEndpointRegistered failureRateWindow }

/-- Feed a sequence of outcomes (true = failure) to an endpoint through the
rate-based feedback hook, threading the timer system. -/
def rateFeed (failureRate : ℚ) (failureRateWindow : Nat) :
    Endpoint → TimerSys → List Bool → Endpoint × TimerSys
  | e, ts, [] => (e, ts)
  | e, ts, err :: rest =>
      let r := rateOnEndpointReturned failureRate failureRateWindow e err ts
      rateFeed failureRate failureRateWindow r.1 r.2 rest

/-- Iterate getNextEndpoint k times, keeping only the final manager state. -/
def iterCalls (p : Policy) : Nat → PoolManager → PoolManager
  | 0, pm => pm
  | Nat.succ k, pm => (PoolManager.getNextEndpoint p (iterCalls p k pm)).2

/-- Write a whole list of values into a ring buffer, left to right. -/
def writeSeq : RingBuffer → List Int → RingBuffer
  | b, [] => b
  | b, v :: vs => writeSeq (b.write v) vs

/-- The reads performed before each write when writing a list of values. -/
def readTrace : RingBuffer → List Int → List (Option Int)
  | _, [] => []
  | b, v :: vs => b.read :: readTrace (b.write v) vs

/-- The url a descriptor will produce (the reconciliation key). -/
def EndpointInfo.url (d : EndpointInfo) : String :=
  d.name ++ ":" ++ toString d.port

/-- The error count after one rate-based outcome: previous count plus
newStatus (1 for failure, 0 for success) minus oldestStatus (the evicted
slot, empty or 0 read as 0). -/
def rateNewErrors (b : RingBuffer) (errs : Int) (err : Bool) : Int :=
  errs + (if err then 1 else 0) -
    (match b.read with
     | some v => if v = 0 then 0 else 1
     | none => 0)

/-- The endpoint after the unconditional buffer and counter update of one
rate-based outcome (before any state transition). -/
def rateUpdatedEndpoint (e : Endpoint) (b : RingBuffer) (errs : Int) (err : Bool) : Endpoint :=
  { e with buffer := some (b.write (if err then 1 else 0)),
           errors := some (rateNewErrors b errs err) }

/-- A sample registered CLOSED endpoint, used by concrete witnesses. -/
def sampleA : Endpoint :=
  { name := "a", port := 1, url := "a:1", eid := 0,
    state := some EPState.CLOSED, buffer := some (RingBuffer.init 1),
    errors := none, reopenTimeout := none }

/-- A second sample registered CLOSED endpoint, used by concrete witnesses. -/
def sampleB : Endpoint :=
  { name := "b", port := 2, url := "b:2", eid := 1,
    state := some EPState.CLOSED, buffer := some (RingBuffer.init 1),
    errors := none, reopenTimeout := none }

/-- A third sample endpoint sharing the url of sampleA but with its own
object identity, used to exhibit duplicate-identity behaviour. -/
def sampleA2 : Endpoint :=
  { name := "a", port := 1, url := "a:1", eid := 2,
    state := some EPState.OPEN, buffer := some (RingBuffer.init 1),
    errors := none, reopenTimeout := some 9 }

/-! Theorems.  The rational operations of Batteries are irreducible by
default; make them reducible again locally so that concrete breaker
scenarios evaluate inside decidability checks. -/

attribute [local semireducible] Rat.mul Rat.inv Rat.add Rat.sub

theorem getStatus_foldl_aux (p : Policy) (es : List Endpoint) (acc : Nat) :
    es.foldl (fun badCount e => badCount + (if p.isInPool e then 0 else 1)) acc
      = acc + (es.filter (fun e => !(p.isInPool e))).length := by
  induction es generalizing acc with
  | nil => simp
  | cons e rest ih =>
      simp only [List.foldl_cons, List.filter_cons, ih]
      cases h : p.isInPool e
      · simp
        omega
      · simp

/-- C10: getStatus is read-only and reports the collection size as total and
the number of endpoints failing the usable predicate as unhealthy.  In this
embedding getStatus is a pure function of the manager (the source performs
no writes in it and the usable predicate only reads the endpoint), so the
frame part holds by construction; the computational content is that the fold
in the source counts exactly the endpoints failing the predicate. -/
theorem c10_getStatus_spec (p : Policy) (pm : PoolManager) :
    PoolManager.getStatus p pm =
      { total := pm.endpoints.length,
        unhealthy := (pm.endpoints.filter (fun e => !(p.isInPool e))).length } := by
  simp [PoolManager.getStatus, getStatus_foldl_aux]

/-- C3: rolling-window feedback.  A failure on an OPEN endpoint is ignored;
with buffer capacity 0 a failure disables immediately; otherwise a failure
reads the oldest recorded timestamp, writes the current time into the buffer,
and disables exactly when the endpoint was HALF_OPEN_PENDING or an oldest
timestamp exists with now - oldest within the failure window.  A success
moves HALF_OPEN_PENDING to CLOSED and otherwise changes nothing (failure
history is never cleared by successes). -/
theorem c3_rolling_feedback_spec (fw now : Int) (e : Endpoint) (b : RingBuffer)
    (ts : TimerSys) (hb : e.buffer = some b) :
    (e.state = some EPState.OPEN →
        rollingOnEndpointReturned fw now e true ts = (e, ts)) ∧
    (e.state ≠ some EPState.OPEN → b.size = 0 →
        rollingOnEndpointReturned fw now e true ts = disableEndpoint e ts ∧
        (disableEndpoint e ts).1.state = some EPState.OPEN) ∧
    (e.state ≠ some EPState.OPEN → b.size ≠ 0 →
        ((e.state = some EPState.HALF_OPEN_PENDING ∨
            (∃ t, b.read = some t ∧ now - t ≤ fw)) →
          rollingOnEndpointReturned fw now e true ts =
            disableEndpoint { e with buffer := some (b.write now) } ts) ∧
        (¬(e.state = some EPState.HALF_OPEN_PENDING ∨
            (∃ t, b.read = some t ∧ now - t ≤ fw)) →
          rollingOnEndpointReturned fw now e true ts =
            ({ e with buffer := some (b.write now) }, ts)) ∧
        ((rollingOnEndpointReturned fw now e true ts).1.state = some EPState.OPEN ↔
          (e.state = some EPState.HALF_OPEN_PENDING ∨
            (∃ t, b.read = some t ∧ now - t ≤ fw)))) ∧
    (e.state = some EPState.HALF_OPEN_PENDING →
        rollingOnEndpointReturned fw now e false ts =
          ({ e with state := some EPState.CLOSED }, ts)) ∧
    (e.state ≠ some EPState.HALF_OPEN_PENDING →
        rollingOnEndpointReturned fw now e false ts = (e, ts)) := by
  refine ⟨?_, ?_, ?_, ?_, ?_⟩
  · intro h
    simp [rollingOnEndpointReturned, h]
  · intro h hsz
    constructor
    · simp [rollingOnEndpointReturned, h, hb, hsz]
    · simp [disableEndpoint, h, TimerSys.schedule]
  · intro h hsz
    by_cases hs : e.state = some EPState.HALF_OPEN_PENDING
    · refine ⟨?_, ?_, ?_⟩
      · intro _
        simp [rollingOnEndpointReturned, h, hb, hsz, hs]
      · intro hd
        exact absurd (Or.inl hs) hd
      · simp only [rollingOnEndpointReturned, if_neg h, hb, hsz, hs]
        simp [disableEndpoint, h, TimerSys.schedule, hs]
    · rcases hr : b.read with _ | t
      · refine ⟨?_, ?_, ?_⟩
        · intro hd
          rcases hd with hd | ⟨t, ht, _⟩
          · exact absurd hd hs
          · cases ht
        · intro _
          simp [rollingOnEndpointReturned, h, hb, hsz, hs, hr]
        · simp [rollingOnEndpointReturned, h, hb, hsz, hs, hr]
      · by_cases hle : now - t ≤ fw
        · refine ⟨?_, ?_, ?_⟩
          · intro _
            simp [rollingOnEndpointReturned, h, hb, hsz, hs, hr, hle]
          · intro hd
            exact absurd (Or.inr ⟨t, rfl, hle⟩) hd
          · simp only [rollingOnEndpointReturned, if_neg h, hb, hsz, hs, hr]
            simp [disableEndpoint, h, TimerSys.schedule, hle, hr]
            omega
        · refine ⟨?_, ?_, ?_⟩
          · intro hd
            rcases hd with hd | ⟨u, hu, hule⟩
            · exact absurd hd hs
            · injection hu with hu
              rw [← hu] at hule
              exact absurd hule hle
          · intro _
            simp [rollingOnEndpointReturned, h, hb, hsz, hs, hr, hle]
          · simp [rollingOnEndpointReturned, h, hb, hsz, hs, hr, hle]
            omega
  · intro h
    simp [rollingOnEndpointReturned, h]
  · intro h
    simp [rollingOnEndpointReturned, h]

/-- C3 witness: the spec applied to a concrete HALF_OPEN_PENDING endpoint. -/
theorem c3_witness :
    (({ name := "a", port := 1, url := "a:1", eid := 0,
        state := some EPState.HALF_OPEN_PENDING,
        buffer := some (RingBuffer.init 1), errors := none,
        reopenTimeout := none } : Endpoint).buffer = some (RingBuffer.init 1)) ∧
    (rollingOnEndpointReturned 1000 5
        { name := "a", port := 1, url := "a:1", eid := 0,
          state := some EPState.HALF_OPEN_PENDING,
          buffer := some (RingBuffer.init 1), errors := none,
          reopenTimeout := none } false ⟨0, []⟩ =
      ({ name := "a", port := 1, url := "a:1", eid := 0,
         state := some EPState.CLOSED,
         buffer := some (RingBuffer.init 1), errors := none,
         reopenTimeout := none }, ⟨0, []⟩)) :=
  ⟨rfl,
   (c3_rolling_feedback_spec 1000 5
      { name := "a", port := 1, url := "a:1", eid := 0,
        state := some EPState.HALF_OPEN_PENDING,
        buffer := some (RingBuffer.init 1), errors := none,
        reopenTimeout := none } (RingBuffer.init 1) ⟨0, []⟩ rfl).2.2.2.1 rfl⟩

/-- C8: disabling an already-OPEN endpoint is a no-op (no timer rearm), and
disabling a non-OPEN endpoint whose stored handle accounts for every live
timer of that endpoint cancels the old timer and schedules exactly one fresh
one, so afterwards exactly one live reopen timer belongs to the endpoint and
its handle is stored on the endpoint. -/
theorem c8_disable_spec (e : Endpoint) (ts : TimerSys) :
    (e.state = some EPState.OPEN → disableEndpoint e ts = (e, ts)) ∧
    (e.state ≠ some EPState.OPEN →
      (∀ t ∈ ts.live, t.id < ts.nextId) →
      (∀ t ∈ ts.live, t.eid = e.eid → e.reopenTimeout = some t.id) →
      ((disableEndpoint e ts).2.live.filter (fun t => t.eid == e.eid)
          = [{ id := ts.nextId, eid := e.eid }] ∧
       (disableEndpoint e ts).1.reopenTimeout = some ts.nextId ∧
       (disableEndpoint e ts).1.state = some EPState.OPEN ∧
       (∀ t ∈ (disableEndpoint e ts).2.live, t.id < (disableEndpoint e ts).2.nextId))) := by
  constructor
  · intro h
    simp [disableEndpoint, h]
  · intro h hwf honly
    cases hro : e.reopenTimeout with
    | none =>
        have h0 : ts.live.filter (fun t => t.eid == e.eid) = [] := by
          rw [List.filter_eq_nil_iff]
          intro t ht hte
          have hc := honly t ht (by simpa using hte)
          rw [hro] at hc
          cases hc
        simp only [disableEndpoint, if_neg h, hro, TimerSys.clearTimer, TimerSys.schedule]
        refine ⟨?_, by trivial, by trivial, ?_⟩
        · rw [List.filter_append, h0]
          simp
        · intro t ht
          rcases List.mem_append.1 ht with hmem | hmem
          · exact Nat.lt_succ_of_lt (hwf t hmem)
          · rw [List.mem_singleton] at hmem
            subst hmem
            exact Nat.lt_succ_self _
    | some hdl =>
        have h0 : (ts.live.filter (fun t => t.id ≠ hdl)).filter
            (fun t => t.eid == e.eid) = [] := by
          rw [List.filter_eq_nil_iff]
          intro t ht hte
          have ht' := List.mem_filter.1 ht
          have hid := honly t ht'.1 (by simpa using hte)
          rw [hro] at hid
          injection hid with hid
          simp [hid] at ht'
        simp only [disableEndpoint, if_neg h, hro, TimerSys.clearTimer, TimerSys.schedule]
        refine ⟨?_, by trivial, by trivial, ?_⟩
        · rw [List.filter_append, h0]
          simp
        · intro t ht
          rcases List.mem_append.1 ht with hmem | hmem
          · exact Nat.lt_succ_of_lt (hwf t (List.mem_of_mem_filter hmem))
          · rw [List.mem_singleton] at hmem
            subst hmem
            exact Nat.lt_succ_self _

/-- C8 witness: a CLOSED endpoint with a stale stored handle and a timer
system where that handle is the only live timer of the endpoint. -/
theorem c8_witness :
    (({ name := "a", port := 1, url := "a:1", eid := 7,
        state := some EPState.CLOSED, buffer := none, errors := none,
        reopenTimeout := some 3 } : Endpoint).state ≠ some EPState.OPEN) ∧
    ((disableEndpoint
        { name := "a", port := 1, url := "a:1", eid := 7,
          state := some EPState.CLOSED, buffer := none, errors := none,
          reopenTimeout := some 3 }
        ⟨5, [⟨3, 7⟩, ⟨1, 2⟩]⟩).2.live.filter (fun t => t.eid == 7)
        = [{ id := 5, eid := 7 }]) := by
  have h := (c8_disable_spec
      { name := "a", port := 1, url := "a:1", eid := 7,
        state := some EPState.CLOSED, buffer := none, errors := none,
        reopenTimeout := some 3 }
      ⟨5, [⟨3, 7⟩, ⟨1, 2⟩]⟩).2 (by decide) (by decide) (by decide)
  exact ⟨by decide, h.1⟩

/-- C4: evaluation at the failing input.  A pool holding one OPEN endpoint
whose stored reopen handle 5 is live is refreshed with an empty descriptor
list: the endpoint is removed, yet updateEndpoints contains no cancellation
(in this embedding it does not even touch the timer system), the handle is
still the one stored on the removed endpoint, the timer is still live, and
its callback still flips the removed endpoint to HALF_OPEN_READY when it
later fires. -/
theorem c4_removal_keeps_timer :
    (PoolManager.updateEndpoints (rollingPolicy 2)
        ⟨[{ name := "a", port := 1, url := "a:1", eid := 0,
            state := some EPState.OPEN, buffer := some (RingBuffer.init 1),
            errors := none, reopenTimeout := some 5 }], 0, 1⟩ []).endpoints = [] ∧
    ({ name := "a", port := 1, url := "a:1", eid := 0,
       state := some EPState.OPEN, buffer := some (RingBuffer.init 1),
       errors := none, reopenTimeout := some 5 } : Endpoint).reopenTimeout = some 5 ∧
    (⟨5, 0⟩ : TimerEntry) ∈ (⟨6, [⟨5, 0⟩]⟩ : TimerSys).live ∧
    (reopenCallback
        { name := "a", port := 1, url := "a:1", eid := 0,
          state := some EPState.OPEN, buffer := some (RingBuffer.init 1),
          errors := none, reopenTimeout := some 5 }).state
      = some EPState.HALF_OPEN_READY := by
  refine ⟨by decide, rfl, by decide, rfl⟩

/-- C5 counterexample: under failureRate one half and failureRateWindow 4,
a freshly registered endpoint fed two failures is already disabled (state
OPEN, not usable), because the second failure raises the error count to the
threshold failureRate * failureRateWindow = 2 and the trip test uses a
non-strict comparison.  The claim asserts the endpoint stays usable through
the whole sequence fail, fail, success, success. -/
theorem c5_counterexample :
    isInPool (rateFeed (1/2) 4
        (rateOnEndpointRegistered 4 (Endpoint.make ⟨"a", 1⟩ 0)) ⟨0, []⟩
        [true, true]).1 = false ∧
    (rateFeed (1/2) 4
        (rateOnEndpointRegistered 4 (Endpoint.make ⟨"a", 1⟩ 0)) ⟨0, []⟩
        [true, true]).1.state = some EPState.OPEN :=
  ⟨by decide, by decide⟩

/-- C5 amended: over the outcome sequence fail, fail, success, success the
error count stays at most 2 throughout, and the endpoint is usable after the
first outcome only: the second failure reaches the threshold
maxErrorCount = 2 and disables it, and it stays OPEN (unusable) through the
two successes. -/
theorem c5_amended :
    ((rateFeed (1/2) 4 (rateOnEndpointRegistered 4 (Endpoint.make ⟨"a", 1⟩ 0)) ⟨0, []⟩
        [true]).1.errors = some 1 ∧
      isInPool (rateFeed (1/2) 4 (rateOnEndpointRegistered 4 (Endpoint.make ⟨"a", 1⟩ 0)) ⟨0, []⟩
        [true]).1 = true) ∧
    ((rateFeed (1/2) 4 (rateOnEndpointRegistered 4 (Endpoint.make ⟨"a", 1⟩ 0)) ⟨0, []⟩
        [true, true]).1.errors = some 2 ∧
      isInPool (rateFeed (1/2) 4 (rateOnEndpointRegistered 4 (Endpoint.make ⟨"a", 1⟩ 0)) ⟨0, []⟩
        [true, true]).1 = false) ∧
    ((rateFeed (1/2) 4 (rateOnEndpointRegistered 4 (Endpoint.make ⟨"a", 1⟩ 0)) ⟨0, []⟩
        [true, true, false]).1.errors = some 2 ∧
      isInPool (rateFeed (1/2) 4 (rateOnEndpointRegistered 4 (Endpoint.make ⟨"a", 1⟩ 0)) ⟨0, []⟩
        [true, true, false]).1 = false) ∧
    ((rateFeed (1/2) 4 (rateOnEndpointRegistered 4 (Endpoint.make ⟨"a", 1⟩ 0)) ⟨0, []⟩
        [true, true, false, false]).1.errors = some 2 ∧
      isInPool (rateFeed (1/2) 4 (rateOnEndpointRegistered 4 (Endpoint.make ⟨"a", 1⟩ 0)) ⟨0, []⟩
        [true, true, false, false]).1 = false) ∧
    ((rateFeed (1/2) 4 (rateOnEndpointRegistered 4 (Endpoint.make ⟨"a", 1⟩ 0)) ⟨0, []⟩
        [true, true, false, false]).1.state = some EPState.OPEN) := by
  refine ⟨⟨?_, ?_⟩, ⟨?_, ?_⟩, ⟨?_, ?_⟩, ⟨?_, ?_⟩, ?_⟩ <;> decide

/-- C9 counterexample: a capacity-0 ring buffer does return a recorded value
from read() once two writes have happened: the pointer becomes NaN after the
first write, and from then on reads and writes both address the single NaN
slot of the backing array. -/
theorem c9_counterexample :
    (writeSeq (RingBuffer.init 0) [5, 7]).read = some 7 := by decide

theorem take_succ_set_last {α : Type _} (v : α) :
    ∀ (l : List α) (o : Nat), o < l.length → (l.set o v).take (o + 1) = l.take o ++ [v] := by
  intro l
  induction l with
  | nil =>
      intro o ho
      simp at ho
  | cons a t ih =>
      intro o ho
      cases o with
      | zero => simp
      | succ o =>
          rw [List.set_cons_succ, List.take_succ_cons, List.take_succ_cons,
            ih o (by simpa using ho)]
          simp

theorem rotate_write_step {α : Type _} (buf : List α) (o : Nat) (v : α)
    (ho : o < buf.length) :
    (buf.set o v).rotate (o + 1) = (buf.rotate o).drop 1 ++ [v] := by
  have h1 : (buf.set o v).rotate (o + 1)
      = (buf.set o v).drop (o + 1) ++ (buf.set o v).take (o + 1) :=
    List.rotate_eq_drop_append_take (by simpa using ho)
  rw [h1, List.drop_set, if_pos (Nat.lt_succ_self o), take_succ_set_last v buf o ho]
  have h2 : buf.rotate o = buf.drop o ++ buf.take o :=
    List.rotate_eq_drop_append_take (Nat.le_of_lt ho)
  rw [h2, List.drop_append_eq_append_drop]
  have h3 : 1 - (buf.drop o).length = 0 := by
    have : (buf.drop o).length = buf.length - o := by simp
    omega
  rw [h3, List.drop_zero, List.drop_drop]
  simp

theorem readTrace_rotate :
    ∀ (vs : List Int) (buf : List (Option Int)) (o sz : Nat) (ns : Option Int),
      o < sz → buf.length = sz →
      readTrace ⟨buf, some o, sz, ns⟩ vs
        = (buf.rotate o).take vs.length ++ (vs.take (vs.length - sz)).map some := by
  intro vs
  induction vs with
  | nil =>
      intro buf o sz ns ho hlen
      simp [readTrace]
  | cons v rest ih =>
      intro buf o sz ns ho hlen
      have hsz0 : sz ≠ 0 := by omega
      have hlenb : 0 < buf.length := by omega
      have hwrite : RingBuffer.write ⟨buf, some o, sz, ns⟩ v
          = ⟨buf.set o (some v), some ((o + 1) % sz), sz, ns⟩ := by
        simp [RingBuffer.write, hsz0]
      have hQlen : (buf.rotate o).length = buf.length := List.length_rotate buf o
      obtain ⟨q, t, hQ⟩ : ∃ q t, buf.rotate o = q :: t := by
        cases hq : buf.rotate o with
        | nil =>
            rw [hq] at hQlen
            simp at hQlen
            omega
        | cons q t => exact ⟨q, t, rfl⟩
      have htlen : t.length + 1 = sz := by
        rw [hQ] at hQlen
        simp at hQlen
        omega
      have hread : RingBuffer.read ⟨buf, some o, sz, ns⟩ = q := by
        have h0 : (buf.rotate o).head? = buf[o]? := List.head?_rotate (by omega)
        rw [hQ] at h0
        simp only [List.head?_cons] at h0
        simp only [RingBuffer.read, List.getD_eq_getElem?_getD, ← h0, Option.getD_some]
      have hlenset : (buf.set o (some v)).length = sz := by simp [hlen]
      have hrot : (buf.set o (some v)).rotate ((o + 1) % sz) = t ++ [some v] := by
        calc (buf.set o (some v)).rotate ((o + 1) % sz)
            = (buf.set o (some v)).rotate (o + 1) := by
              rw [← hlenset, List.rotate_mod]
          _ = (buf.rotate o).drop 1 ++ [some v] :=
              rotate_write_step buf o (some v) (by omega)
          _ = t ++ [some v] := by
              rw [hQ]
              simp
      have ho' : (o + 1) % sz < sz := Nat.mod_lt _ (by omega)
      have hih := ih (buf.set o (some v)) ((o + 1) % sz) sz ns ho' hlenset
      show RingBuffer.read ⟨buf, some o, sz, ns⟩ ::
          readTrace (RingBuffer.write ⟨buf, some o, sz, ns⟩ v) rest = _
      rw [hread, hwrite, hih, hrot, hQ]
      rcases Nat.lt_or_ge rest.length sz with hlt | hge
      · have h1 : rest.length - sz = 0 := by omega
        have h2 : rest.length + 1 - sz = 0 := by omega
        have h3 : rest.length - t.length = 0 := by omega
        simp [h1, h2, List.take_append_eq_append_take, h3]
      · have h5 : rest.length + 1 - sz = (rest.length - sz) + 1 := by omega
        have h6 : (t ++ [some v]).take rest.length = t ++ [some v] := by
          apply List.take_of_length_le
          simp
          omega
        have h7 : (q :: t).take (rest.length + 1) = q :: t := by
          apply List.take_of_length_le
          simp
          omega
        simp only [List.length_cons, h5, h6, h7, List.take_succ_cons, List.map_cons]
        simp

theorem readTrace_length (vs : List Int) :
    ∀ b : RingBuffer, (readTrace b vs).length = vs.length := by
  induction vs with
  | nil => intro b; rfl
  | cons v rest ih => intro b; simp [readTrace, ih]

theorem readTrace_snoc (vs : List Int) :
    ∀ (b : RingBuffer) (x : Int),
      readTrace b (vs ++ [x]) = readTrace b vs ++ [(writeSeq b vs).read] := by
  induction vs with
  | nil =>
      intro b x
      simp [readTrace, writeSeq]
  | cons v rest ih =>
      intro b x
      simp [readTrace, writeSeq, ih]

theorem readTrace_init (c : Nat) (hc : 0 < c) (vs : List Int) :
    readTrace (RingBuffer.init c) vs
      = List.replicate (min vs.length c) none ++ (vs.take (vs.length - c)).map some := by
  have h := readTrace_rotate vs (List.replicate c none) 0 c none hc (by simp)
  rw [RingBuffer.init, h, List.rotate_zero, List.take_replicate]

theorem writeSeq_offset_none (vs : List Int) :
    ∀ (b : RingBuffer) (x : Int), b.offset = none →
      (writeSeq b (vs ++ [x])).read = some x := by
  induction vs with
  | nil =>
      intro b x hoff
      simp [writeSeq, RingBuffer.write, hoff, RingBuffer.read]
  | cons v rest ih =>
      intro b x hoff
      show (writeSeq (b.write v) (rest ++ [x])).read = some x
      apply ih
      simp [RingBuffer.write, hoff]

/-- C9 amended: for a buffer of capacity c bigger than 0, read() returns the
slot the next write() will overwrite, and write(v) stores v there and
advances the pointer modulo c; writing a list of values into a fresh buffer
and reading before each write yields the c initially empty slots and then the
previously written values in order (so read() always yields the oldest
recorded value), and in particular after at least c writes every read()
returns a previously written value.  A buffer of capacity 0 reads empty
before any write and after one write, but from the second write on read()
returns the most recently written value (the NaN-pointer slot), not none as
the claim stated. -/
theorem c9_ringbuffer_spec :
    (∀ (b : RingBuffer) (o : Nat) (v : Int), b.offset = some o → o < b.buffer.length →
        b.read = b.buffer.getD o none ∧
        (b.write v).buffer = b.buffer.set o (some v) ∧
        (b.size ≠ 0 → (b.write v).offset = some ((o + 1) % b.size))) ∧
    (∀ (c : Nat) (vs : List Int), 0 < c →
        readTrace (RingBuffer.init c) vs
          = List.replicate (min vs.length c) none ++ (vs.take (vs.length - c)).map some) ∧
    (∀ (c : Nat) (vs : List Int), 0 < c → c ≤ vs.length →
        ∃ v, v ∈ vs ∧ (writeSeq (RingBuffer.init c) vs).read = some v) ∧
    ((RingBuffer.init 0).read = none ∧
      (∀ v : Int, (writeSeq (RingBuffer.init 0) [v]).read = none) ∧
      (∀ (v : Int) (vs : List Int) (x : Int),
        (writeSeq (RingBuffer.init 0) (v :: (vs ++ [x]))).read = some x)) := by
  refine ⟨?_, ?_, ?_, ?_, ?_, ?_⟩
  · intro b o v hoff ho
    refine ⟨?_, ?_, ?_⟩
    · simp [RingBuffer.read, hoff]
    · simp [RingBuffer.write, hoff]
    · intro hsz
      simp [RingBuffer.write, hoff, hsz]
  · intro c vs hc
    exact readTrace_init c hc vs
  · intro c vs hc hcl
    have hk : 0 < vs.length := by omega
    obtain ⟨vs', x, hvs⟩ : ∃ vs' x, vs = vs' ++ [x] := by
      rcases List.eq_nil_or_concat vs with h | ⟨vs', x, h⟩
      · rw [h] at hk
        simp at hk
      · exact ⟨vs', x, by simpa [List.concat_eq_append] using h⟩
    have hsnoc := readTrace_snoc vs (RingBuffer.init c) 0
    have hfull := readTrace_init c hc (vs ++ [0])
    rw [hsnoc] at hfull
    have hmin : min (vs ++ [0]).length c = c := by
      simp
      omega
    have htake : (vs ++ [0]).take ((vs ++ [0]).length - c)
        = vs.take (vs.length + 1 - c) := by
      rw [List.take_append_eq_append_take]
      have h1 : (vs ++ [0]).length - c = vs.length + 1 - c := by simp
      have h2 : vs.length + 1 - c - vs.length = 0 := by omega
      rw [h1, h2]
      simp
    rw [hmin, htake] at hfull
    have hidx := congrArg (fun l => l[vs.length]?) hfull
    simp only at hidx
    have hlhs : (readTrace (RingBuffer.init c) vs ++
        [(writeSeq (RingBuffer.init c) vs).read])[vs.length]?
        = some ((writeSeq (RingBuffer.init c) vs).read) := by
      rw [List.getElem?_append_right (by rw [readTrace_length])]
      rw [readTrace_length]
      simp
    have htl : (vs.take (vs.length + 1 - c)).length = vs.length + 1 - c := by
      rw [List.length_take]
      omega
    have hrhs : (List.replicate c (none : Option Int) ++
        (vs.take (vs.length + 1 - c)).map some)[vs.length]?
        = ((vs.take (vs.length + 1 - c)).map some)[vs.length - c]? := by
      rw [List.getElem?_append_right (by simp; omega)]
      simp
    have hlt : vs.length - c < (vs.take (vs.length + 1 - c)).length := by
      rw [htl]
      omega
    have hrhs2 : ((vs.take (vs.length + 1 - c)).map some)[vs.length - c]?
        = some (some ((vs.take (vs.length + 1 - c))[vs.length - c])) := by
      rw [List.getElem?_map, List.getElem?_eq_getElem hlt]
      rfl
    rw [hlhs, hrhs, hrhs2] at hidx
    refine ⟨(vs.take (vs.length + 1 - c))[vs.length - c], ?_, ?_⟩
    · exact List.take_subset _ _ (List.getElem_mem _)
    · injection hidx
  · rfl
  · intro v
    rfl
  · intro v vs x
    show (writeSeq ((RingBuffer.init 0).write v) (vs ++ [x])).read = some x
    apply writeSeq_offset_none
    rfl

/-- C9 witness: the ring buffer spec applied at capacity 2 with the writes
[10, 20, 30]. -/
theorem c9_witness :
    ((RingBuffer.init 2).offset = some 0 ∧ (0 : Nat) < (RingBuffer.init 2).buffer.length ∧
      (RingBuffer.init 2).read = (RingBuffer.init 2).buffer.getD 0 none) ∧
    ((0 : Nat) < 2 ∧
      readTrace (RingBuffer.init 2) [10, 20, 30]
        = List.replicate (min 3 2) none ++ ([10, 20, 30].take (3 - 2)).map some) ∧
    ((2 : Nat) ≤ 3 ∧
      ∃ v, v ∈ [(10 : Int), 20, 30] ∧
        (writeSeq (RingBuffer.init 2) [10, 20, 30]).read = some v) := by
  have h := c9_ringbuffer_spec
  refine ⟨⟨rfl, by decide, (h.1 (RingBuffer.init 2) 0 7 rfl (by decide)).1⟩,
    ⟨by decide, h.2.1 2 [10, 20, 30] (by decide)⟩,
    ⟨by decide, h.2.2.1 2 [10, 20, 30] (by decide) (by decide)⟩⟩

theorem rateFeed_snoc (fr : ℚ) (w : Nat) (os : List Bool) :
    ∀ (e : Endpoint) (ts : TimerSys) (x : Bool),
      rateFeed fr w e ts (os ++ [x])
        = rateOnEndpointReturned fr w (rateFeed fr w e ts os).1 x
            (rateFeed fr w e ts os).2 := by
  induction os with
  | nil =>
      intro e ts x
      simp [rateFeed]
  | cons o rest ih =>
      intro e ts x
      exact ih (rateOnEndpointReturned fr w e o ts).1 (rateOnEndpointReturned fr w e o ts).2 x

theorem disableEndpoint_fields (e : Endpoint) (ts : TimerSys) :
    (disableEndpoint e ts).1.buffer = e.buffer ∧
    (disableEndpoint e ts).1.errors = e.errors := by
  unfold disableEndpoint
  by_cases h : e.state = some EPState.OPEN <;> simp [h]

theorem rateReturned_fields (fr : ℚ) (w : Nat) (e : Endpoint) (x : Bool) (ts : TimerSys)
    (b : RingBuffer) (errs : Int) (hb : e.buffer = some b) (he : e.errors = some errs) :
    (rateOnEndpointReturned fr w e x ts).1.buffer
        = some (b.write (if x then 1 else 0)) ∧
    (rateOnEndpointReturned fr w e x ts).1.errors
        = some (rateNewErrors b errs x) := by
  constructor
  all_goals simp only [rateOnEndpointReturned, hb, he, rateNewErrors]
  all_goals repeat' split
  all_goals first
    | exact (disableEndpoint_fields _ _).1
    | exact (disableEndpoint_fields _ _).2
    | rfl

theorem ringStep (b : RingBuffer) (v : Int) (o : Nat) (hoff : b.offset = some o)
    (ho : o < b.size) (hlen : b.buffer.length = b.size) :
    ∃ q t, b.buffer.rotate o = q :: t ∧
      b.read = q ∧
      (b.write v).buffer = b.buffer.set o (some v) ∧
      (b.write v).offset = some ((o + 1) % b.size) ∧
      (b.write v).size = b.size ∧
      (b.write v).buffer.length = b.size ∧
      (b.write v).buffer.rotate ((o + 1) % b.size) = t ++ [some v] := by
  have hsz0 : b.size ≠ 0 := by omega
  have hlenb : 0 < b.buffer.length := by omega
  have hQlen : (b.buffer.rotate o).length = b.buffer.length := List.length_rotate _ _
  obtain ⟨q, t, hQ⟩ : ∃ q t, b.buffer.rotate o = q :: t := by
    cases hq : b.buffer.rotate o with
    | nil =>
        rw [hq] at hQlen
        simp at hQlen
        omega
    | cons q t => exact ⟨q, t, rfl⟩
  have hread : b.read = q := by
    have h0 : (b.buffer.rotate o).head? = b.buffer[o]? := List.head?_rotate (by omega)
    rw [hQ] at h0
    simp only [List.head?_cons] at h0
    simp only [RingBuffer.read, hoff, List.getD_eq_getElem?_getD, ← h0, Option.getD_some]
  have hw : b.write v =
      { b with buffer := b.buffer.set o (some v), offset := some ((o + 1) % b.size) } := by
    simp [RingBuffer.write, hoff, hsz0]
  have hlenset : (b.buffer.set o (some v)).length = b.size := by simp [hlen]
  refine ⟨q, t, hQ, hread, by rw [hw], by rw [hw], by rw [hw], by rw [hw]; simpa using hlen, ?_⟩
  rw [hw]
  show (b.buffer.set o (some v)).rotate ((o + 1) % b.size) = t ++ [some v]
  calc (b.buffer.set o (some v)).rotate ((o + 1) % b.size)
      = (b.buffer.set o (some v)).rotate (o + 1) := by
        rw [← hlenset, List.rotate_mod]
    _ = (b.buffer.rotate o).drop 1 ++ [some v] :=
        rotate_write_step b.buffer o (some v) (by omega)
    _ = t ++ [some v] := by
        rw [hQ]
        simp

theorem rateFeed_inv (fr : ℚ) (w : Nat) (hw : 0 < w) (e0 : Endpoint) (ts : TimerSys) :
    ∀ os : List Bool,
      ∃ (bk : RingBuffer) (ok : Nat),
        (rateFeed fr w (rateOnEndpointRegistered w e0) ts os).1.buffer = some bk ∧
        (rateFeed fr w (rateOnEndpointRegistered w e0) ts os).1.errors
          = some (((os.drop (os.length - w)).count true : Nat) : Int) ∧
        bk.size = w ∧ bk.buffer.length = w ∧ bk.offset = some ok ∧ ok < w ∧
        bk.buffer.rotate ok
          = List.replicate (w - os.length) none ++
            (os.drop (os.length - w)).map (fun y => some (if y then (1 : Int) else 0)) := by
  intro os
  induction os using List.reverseRecOn with
  | nil =>
      refine ⟨RingBuffer.init w, 0, rfl, by simp [rateFeed, rateOnEndpointRegistered], rfl,
        by simp [RingBuffer.init], rfl, hw, ?_⟩
      simp [RingBuffer.init, List.rotate_zero]
  | append_singleton os x ih =>
      obtain ⟨bk, ok, hbuf, herr, hsz, hblen, hoff, hok, hrot⟩ := ih
      rw [rateFeed_snoc]
      have hfields := rateReturned_fields fr w _ x
        (rateFeed fr w (rateOnEndpointRegistered w e0) ts os).2 bk _ hbuf herr
      obtain ⟨q, t, hQ, hread, hwbuf, hwoff, hwsz, hwlen, hwrot⟩ :=
        ringStep bk (if x then 1 else 0) ok hoff (by omega) (by omega)
      rw [hsz] at hwoff hwsz hwlen hwrot
      refine ⟨bk.write (if x then 1 else 0), (ok + 1) % w, hfields.1, ?_, hwsz, hwlen,
        hwoff, Nat.mod_lt _ (by omega), ?_⟩
      · rw [hfields.2]
        rcases Nat.lt_or_ge os.length w with hlt | hge
        · have hd0 : os.length - w = 0 := by omega
          rw [hd0, List.drop_zero] at herr hrot
          have hrep : w - os.length = (w - (os.length + 1)) + 1 := by omega
          rw [hQ, hrep, List.replicate_succ] at hrot
          injection hrot with hq ht
          have hd1 : (os ++ [x]).length - w = 0 := by
            simp
            omega
          rw [hd1, List.drop_zero]
          simp only [rateNewErrors, hread, hq]
          cases x <;> simp [List.count_append, hd0]
        · have hd0 : w - os.length = 0 := by omega
          rw [hd0, List.replicate_zero, List.nil_append] at hrot
          obtain ⟨h1, r, hd⟩ : ∃ h1 r, os.drop (os.length - w) = h1 :: r := by
            cases hdd : os.drop (os.length - w) with
            | nil =>
                have := congrArg List.length hdd
                simp [List.length_drop] at this
                omega
            | cons h1 r => exact ⟨h1, r, rfl⟩
          rw [hQ, hd] at hrot
          injection hrot with hq ht
          rw [hd] at herr
          have hdrop : (os ++ [x]).drop ((os ++ [x]).length - w) = r ++ [x] := by
            have h5 : (os ++ [x]).length - w = (os.length - w) + 1 := by
              simp
              omega
            rw [h5, List.drop_append_eq_append_drop]
            have h6 : (os.length - w) + 1 - os.length = 0 := by omega
            have h7 : os.drop ((os.length - w) + 1) = r := by
              have := List.drop_drop 1 (os.length - w) os
              rw [hd] at this
              simpa using this.symm
            rw [h6, h7, List.drop_zero]
          rw [hdrop]
          simp only [rateNewErrors, hread, hq]
          cases h1 <;> cases x <;> simp [List.count_append, List.count_cons, hd]
      · rw [hwrot]
        rcases Nat.lt_or_ge os.length w with hlt | hge
        · have hd0 : os.length - w = 0 := by omega
          rw [hd0, List.drop_zero] at hrot
          have hrep : w - os.length = (w - (os.length + 1)) + 1 := by omega
          rw [hQ, hrep, List.replicate_succ] at hrot
          injection hrot with hq ht
          have hd1 : (os ++ [x]).length - w = 0 := by
            simp
            omega
          have hd2 : w - (os ++ [x]).length = w - (os.length + 1) := by simp
          rw [hd1, List.drop_zero, hd2, ht]
          simp [List.map_append]
        · have hd0 : w - os.length = 0 := by omega
          rw [hd0, List.replicate_zero, List.nil_append] at hrot
          obtain ⟨h1, r, hd⟩ : ∃ h1 r, os.drop (os.length - w) = h1 :: r := by
            cases hdd : os.drop (os.length - w) with
            | nil =>
                have := congrArg List.length hdd
                simp [List.length_drop] at this
                omega
            | cons h1 r => exact ⟨h1, r, rfl⟩
          rw [hQ, hd] at hrot
          injection hrot with hq ht
          have hdrop : (os ++ [x]).drop ((os ++ [x]).length - w) = r ++ [x] := by
            have h5 : (os ++ [x]).length - w = (os.length - w) + 1 := by
              simp
              omega
            rw [h5, List.drop_append_eq_append_drop]
            have h6 : (os.length - w) + 1 - os.length = 0 := by omega
            have h7 : os.drop ((os.length - w) + 1) = r := by
              have := List.drop_drop 1 (os.length - w) os
              rw [hd] at this
              simpa using this.symm
            rw [h6, h7, List.drop_zero]
          have hd2 : w - (os ++ [x]).length = 0 := by
            simp
            omega
          rw [hdrop, hd2, List.replicate_zero, List.nil_append, ht]
          simp [List.map_append]

theorem rateReturned_cases (fr : ℚ) (w : Nat) (e : Endpoint) (err : Bool)
    (ts : TimerSys) (b : RingBuffer) (errs : Int)
    (hb : e.buffer = some b) (he : e.errors = some errs) :
    rateOnEndpointReturned fr w e err ts
      = if err && (e.state == some EPState.HALF_OPEN_PENDING ||
            decide (fr * (w : ℚ) ≤ ((rateNewErrors b errs err : Int) : ℚ))) then
          disableEndpoint (rateUpdatedEndpoint e b errs err) ts
        else if !err && (e.state == some EPState.HALF_OPEN_PENDING) then
          ({ rateUpdatedEndpoint e b errs err with state := some EPState.CLOSED }, ts)
        else (rateUpdatedEndpoint e b errs err, ts) := by
  simp only [rateOnEndpointReturned, hb, he, rateUpdatedEndpoint, rateNewErrors]

/-- C6: under the rate-based policy every outcome reads the oldest slot
(empty read as 0), writes the new status (1 for failure, 0 for success),
updates the error count by newStatus minus oldestStatus, and disables the
endpoint exactly when the outcome is a failure and the endpoint was
HALF_OPEN_PENDING or the updated error count reaches
failureRate * failureRateWindow; a success while HALF_OPEN_PENDING closes
the breaker.  Consequently, feeding any outcome sequence to a freshly
registered endpoint keeps the error count equal to the number of failures
among the last failureRateWindow outcomes. -/
theorem c6_rate_feedback_spec :
    (∀ (fr : ℚ) (w : Nat) (e : Endpoint) (err : Bool) (ts : TimerSys)
        (b : RingBuffer) (errs : Int),
      e.buffer = some b → e.errors = some errs →
      ((err = true →
          (e.state = some EPState.HALF_OPEN_PENDING ∨
            fr * (w : ℚ) ≤ ((rateNewErrors b errs err : Int) : ℚ)) →
          rateOnEndpointReturned fr w e err ts
            = disableEndpoint (rateUpdatedEndpoint e b errs err) ts) ∧
       (err = true →
          ¬(e.state = some EPState.HALF_OPEN_PENDING ∨
            fr * (w : ℚ) ≤ ((rateNewErrors b errs err : Int) : ℚ)) →
          rateOnEndpointReturned fr w e err ts = (rateUpdatedEndpoint e b errs err, ts)) ∧
       (err = false → e.state = some EPState.HALF_OPEN_PENDING →
          rateOnEndpointReturned fr w e err ts
            = ({ rateUpdatedEndpoint e b errs err with state := some EPState.CLOSED }, ts)) ∧
       (err = false → e.state ≠ some EPState.HALF_OPEN_PENDING →
          rateOnEndpointReturned fr w e err ts = (rateUpdatedEndpoint e b errs err, ts)) ∧
       (e.state ≠ some EPState.OPEN →
          ((rateOnEndpointReturned fr w e err ts).1.state = some EPState.OPEN ↔
            (err = true ∧ (e.state = some EPState.HALF_OPEN_PENDING ∨
              fr * (w : ℚ) ≤ ((rateNewErrors b errs err : Int) : ℚ))))))) ∧
    (∀ (fr : ℚ) (w : Nat) (e0 : Endpoint) (ts : TimerSys) (os : List Bool), 0 < w →
      (rateFeed fr w (rateOnEndpointRegistered w e0) ts os).1.errors
        = some (((os.drop (os.length - w)).count true : Nat) : Int)) := by
  constructor
  · intro fr w e err ts b errs hb he
    have hcases := rateReturned_cases fr w e err ts b errs hb he
    refine ⟨?_, ?_, ?_, ?_, ?_⟩
    · rintro rfl hd
      rw [hcases]
      rcases hd with hs | hle
      · simp [hs]
      · simp [hle]
    · rintro rfl hd
      push_neg at hd
      rw [hcases]
      simp [hd.1, hd.2]
    · rintro rfl hs
      rw [hcases]
      simp [hs]
    · rintro rfl hs
      rw [hcases]
      simp [hs]
    · intro hOpen
      have hstate : (rateUpdatedEndpoint e b errs err).state = e.state := rfl
      rw [hcases]
      cases err with
      | false =>
          by_cases hs : e.state = some EPState.HALF_OPEN_PENDING
          · simp [hs, hOpen]
          · simp [hs, hOpen, hstate]
      | true =>
          by_cases hs : e.state = some EPState.HALF_OPEN_PENDING
          · simp only [hs]
            simp [disableEndpoint, hstate, hs, hOpen, TimerSys.schedule]
          · by_cases hle : fr * (w : ℚ) ≤ ((rateNewErrors b errs true : Int) : ℚ)
            · simp only [hle]
              simp [disableEndpoint, hstate, hs, hOpen, TimerSys.schedule, hle]
            · simp [hs, hle, hOpen, hstate]
  · intro fr w e0 ts os hw
    obtain ⟨bk, ok, _, herr, _⟩ := rateFeed_inv fr w hw e0 ts os
    exact herr

/-- C6 witness: the per-outcome spec applied to a concrete CLOSED endpoint
whose next failure reaches the threshold, and the running-count invariant
applied to the outcome sequence [fail, success, fail] in a window of 2. -/
theorem c6_witness :
    (rateOnEndpointReturned (1/2) 2
        { name := "a", port := 1, url := "a:1", eid := 0,
          state := some EPState.CLOSED, buffer := some (RingBuffer.init 2),
          errors := some 0, reopenTimeout := none } true ⟨0, []⟩
      = disableEndpoint
          (rateUpdatedEndpoint
            { name := "a", port := 1, url := "a:1", eid := 0,
              state := some EPState.CLOSED, buffer := some (RingBuffer.init 2),
              errors := some 0, reopenTimeout := none }
            (RingBuffer.init 2) 0 true) ⟨0, []⟩) ∧
    ((rateFeed (1/2) 2 (rateOnEndpointRegistered 2 (Endpoint.make ⟨"a", 1⟩ 0)) ⟨0, []⟩
        [true, false, true]).1.errors
      = some ((([true, false, true].drop (3 - 2)).count true : Nat) : Int)) :=
  ⟨(c6_rate_feedback_spec.1 (1/2) 2
      { name := "a", port := 1, url := "a:1", eid := 0,
        state := some EPState.CLOSED, buffer := some (RingBuffer.init 2),
        errors := some 0, reopenTimeout := none } true ⟨0, []⟩
      (RingBuffer.init 2) 0 rfl rfl).1 rfl (Or.inr (by decide)),
   c6_rate_feedback_spec.2 (1/2) 2 (Endpoint.make ⟨"a", 1⟩ 0) ⟨0, []⟩
      [true, false, true] (by decide)⟩

theorem scanFrom_sound (p : Policy) (es : List Endpoint) (c : Nat) :
    ∀ (f i off : Nat), scanFrom p es c i f = some off →
      ∃ e, es[off]? = some e ∧ p.isInPool e = true := by
  intro f
  induction f with
  | zero =>
      intro i off h
      cases h
  | succ f ih =>
      intro i off h
      rw [scanFrom] at h
      cases hlook : es[(c + i) % es.length]? with
      | none =>
          simp [hlook] at h
      | some e =>
          simp only [hlook] at h
          by_cases hin : p.isInPool e = true
          · rw [if_pos hin] at h
            injection h with h
            exact ⟨e, h ▸ hlook, hin⟩
          · rw [if_neg hin] at h
            exact ih (i + 1) off h

theorem scanFrom_none (p : Policy) (es : List Endpoint) (c : Nat) :
    ∀ (f i : Nat),
      (∀ d, d < f → ∀ e, es[(c + i + d) % es.length]? = some e → p.isInPool e = false) →
      scanFrom p es c i f = none := by
  intro f
  induction f with
  | zero =>
      intro i _
      rfl
  | succ f ih =>
      intro i hnone
      rw [scanFrom]
      cases hlook : es[(c + i) % es.length]? with
      | none => simp [hlook]
      | some e =>
          have h0 : p.isInPool e = false := by
            have := hnone 0 (Nat.succ_pos f) e
            simp only [Nat.add_zero] at this
            exact this hlook
          simp only [hlook, h0, Bool.false_eq_true, if_false]
          apply ih
          intro d hd e1 hlook1
          have := hnone (d + 1) (by omega) e1
          rw [show c + i + (d + 1) = c + (i + 1) + d by omega] at this
          exact this hlook1

theorem scanFrom_first (p : Policy) (es : List Endpoint) (c : Nat) :
    ∀ (j i f : Nat) (e : Endpoint), j < f →
      (∀ d, d < j → ∀ e1, es[(c + i + d) % es.length]? = some e1 →
        p.isInPool e1 = false) →
      es[(c + i + j) % es.length]? = some e → p.isInPool e = true →
      scanFrom p es c i f = some ((c + i + j) % es.length) := by
  intro j
  induction j with
  | zero =>
      intro i f e hf hbelow hlook hin
      obtain ⟨f1, rfl⟩ : ∃ f1, f = f1 + 1 := ⟨f - 1, by omega⟩
      rw [scanFrom]
      simp only [Nat.add_zero] at hlook ⊢
      simp [hlook, hin]
  | succ j ih =>
      intro i f e hf hbelow hlook hin
      obtain ⟨f1, rfl⟩ : ∃ f1, f = f1 + 1 := ⟨f - 1, by omega⟩
      have hbelow1 : ∀ d, d < j → ∀ e1,
          es[(c + (i + 1) + d) % es.length]? = some e1 → p.isInPool e1 = false := by
        intro d hd e1 hlook1
        have := hbelow (d + 1) (by omega) e1
        rw [show c + i + (d + 1) = c + (i + 1) + d by omega] at this
        exact this hlook1
      have hlook1 : es[(c + (i + 1) + j) % es.length]? = some e := by
        rw [show c + (i + 1) + j = c + i + (j + 1) by omega]
        exact hlook
      have hres := ih (i + 1) f1 e (by omega) hbelow1 hlook1 hin
      rw [scanFrom]
      rw [show c + i + (j + 1) = c + (i + 1) + j by omega]
      cases hlook0 : es[(c + i) % es.length]? with
      | none =>
          exfalso
          have hle : es.length ≤ (c + i) % es.length := List.getElem?_eq_none_iff.1 hlook0
          have hl0 : es.length = 0 := by
            rcases Nat.eq_zero_or_pos es.length with h | h
            · exact h
            · have hm : (c + i) % es.length < es.length := Nat.mod_lt _ h
              omega
          have hmem := List.getElem?_mem hlook
          rw [List.length_eq_zero] at hl0
          subst hl0
          simp at hmem
      | some e0 =>
          have h0 : p.isInPool e0 = false := by
            have := hbelow 0 (Nat.succ_pos j) e0
            simp only [Nat.add_zero] at this
            exact this hlook0
          simp only [hlook0, h0, Bool.false_eq_true, if_false]
          exact hres

/-- C7: the eject-on-error usable predicate holds exactly for CLOSED and
HALF_OPEN_READY; any endpoint selected by getNextEndpoint under such a
policy satisfied the predicate at scan time, so it was neither OPEN nor
HALF_OPEN_PENDING; a selected HALF_OPEN_READY endpoint is returned (and
stored) as HALF_OPEN_PENDING and thereby fails the usable predicate until
its outcome is reported, while a selected CLOSED endpoint is unchanged. -/
theorem c7_selection_safety :
    (∀ e : Endpoint, isInPool e = true ↔
      (e.state = some EPState.CLOSED ∨ e.state = some EPState.HALF_OPEN_READY)) ∧
    (∀ (p : Policy) (pm : PoolManager) (r : Endpoint) (pm1 : PoolManager),
      p.isInPool = isInPool → p.onEndpointSelected = onEndpointSelected →
      PoolManager.getNextEndpoint p pm = (some r, pm1) →
      ∃ off e, pm.endpoints[off]? = some e ∧ isInPool e = true ∧
        e.state ≠ some EPState.OPEN ∧ e.state ≠ some EPState.HALF_OPEN_PENDING ∧
        r = onEndpointSelected e ∧
        pm1 = { pm with endpoints := pm.endpoints.set off (onEndpointSelected e),
                        endpointOffset := off + 1 }) ∧
    (∀ e : Endpoint, e.state = some EPState.HALF_OPEN_READY →
      (onEndpointSelected e).state = some EPState.HALF_OPEN_PENDING ∧
      isInPool (onEndpointSelected e) = false) ∧
    (∀ e : Endpoint, e.state = some EPState.CLOSED → onEndpointSelected e = e) := by
  refine ⟨?_, ?_, ?_, ?_⟩
  · intro e
    simp [isInPool]
  · intro p pm r pm1 hp1 hp2 hret
    unfold PoolManager.getNextEndpoint at hret
    cases hscan : scanFrom p pm.endpoints pm.endpointOffset 0 pm.endpoints.length with
    | none =>
        simp only [hscan] at hret
        simp at hret
    | some off =>
        simp only [hscan] at hret
        cases hlook : pm.endpoints[off]? with
        | none =>
            simp only [hlook] at hret
            simp at hret
        | some e =>
            simp only [hlook] at hret
            simp only [Prod.mk.injEq, Option.some.injEq] at hret
            obtain ⟨hr, hpm1⟩ := hret
            obtain ⟨e1, hlook1, hin1⟩ :=
              scanFrom_sound p pm.endpoints pm.endpointOffset pm.endpoints.length 0 off hscan
            rw [hlook] at hlook1
            injection hlook1 with he1
            subst he1
            rw [hp1] at hin1
            have hstates : e.state = some EPState.CLOSED ∨
                e.state = some EPState.HALF_OPEN_READY := by
              simpa [isInPool] using hin1
            refine ⟨off, e, hlook, hin1, ?_, ?_, by rw [← hr, hp2], by rw [← hpm1, hp2]⟩
            · rcases hstates with h | h <;> simp [h]
            · rcases hstates with h | h <;> simp [h]
  · intro e he
    constructor
    · simp [onEndpointSelected, he]
    · simp [onEndpointSelected, isInPool, he]
  · intro e he
    simp [onEndpointSelected, he]

/-- C7 witness: a pool of one HALF_OPEN_READY endpoint under the rolling
policy: selection returns it as HALF_OPEN_PENDING. -/
theorem c7_witness :
    isInPool
      { name := "a", port := 1, url := "a:1", eid := 0,
        state := some EPState.HALF_OPEN_READY, buffer := some (RingBuffer.init 1),
        errors := none, reopenTimeout := none } = true ∧
    (∃ off e,
      ([{ name := "a", port := 1, url := "a:1", eid := 0,
          state := some EPState.HALF_OPEN_READY, buffer := some (RingBuffer.init 1),
          errors := none, reopenTimeout := none }] : List Endpoint)[off]? = some e ∧
      isInPool e = true ∧
      e.state ≠ some EPState.OPEN ∧ e.state ≠ some EPState.HALF_OPEN_PENDING ∧
      (onEndpointSelected
        { name := "a", port := 1, url := "a:1", eid := 0,
          state := some EPState.HALF_OPEN_READY, buffer := some (RingBuffer.init 1),
          errors := none, reopenTimeout := none }) = onEndpointSelected e ∧
      ({ endpoints := [onEndpointSelected
            { name := "a", port := 1, url := "a:1", eid := 0,
              state := some EPState.HALF_OPEN_READY, buffer := some (RingBuffer.init 1),
              errors := none, reopenTimeout := none }],
         endpointOffset := 1, nextEid := 1 } : PoolManager)
        = { endpoints :=
              ([{ name := "a", port := 1, url := "a:1", eid := 0,
                  state := some EPState.HALF_OPEN_READY, buffer := some (RingBuffer.init 1),
                  errors := none, reopenTimeout := none }] : List Endpoint).set off
                (onEndpointSelected e),
            endpointOffset := off + 1, nextEid := 1 }) := by
  constructor
  · decide
  · exact (c7_selection_safety.2.1 (rollingPolicy 2)
      ⟨[{ name := "a", port := 1, url := "a:1", eid := 0,
          state := some EPState.HALF_OPEN_READY, buffer := some (RingBuffer.init 1),
          errors := none, reopenTimeout := none }], 0, 1⟩
      (onEndpointSelected
        { name := "a", port := 1, url := "a:1", eid := 0,
          state := some EPState.HALF_OPEN_READY, buffer := some (RingBuffer.init 1),
          errors := none, reopenTimeout := none })
      ⟨[onEndpointSelected
          { name := "a", port := 1, url := "a:1", eid := 0,
            state := some EPState.HALF_OPEN_READY, buffer := some (RingBuffer.init 1),
            errors := none, reopenTimeout := none }], 1, 1⟩
      rfl rfl (by decide))

theorem mod_shift_inj (c l j k : Nat) (hj : j < l) (hk : k < l)
    (h : (c + j) % l = (c + k) % l) : j = k := by
  have h1 : j ≡ k [MOD l] := Nat.ModEq.add_left_cancel' c h
  rwa [Nat.ModEq, Nat.mod_eq_of_lt hj, Nat.mod_eq_of_lt hk] at h1

theorem roundRobin_step (p : Policy) (pm : PoolManager)
    (hus : ∀ e ∈ pm.endpoints, p.isInPool e = true) (k : Nat)
    (hk : k < pm.endpoints.length)
    (hlen : (iterCalls p k pm).endpoints.length = pm.endpoints.length)
    (hcur : (iterCalls p k pm).endpointOffset % pm.endpoints.length
      = (pm.endpointOffset + k) % pm.endpoints.length)
    (hpres : ∀ pos, (∀ j, j < k → (pm.endpointOffset + j) % pm.endpoints.length ≠ pos) →
      (iterCalls p k pm).endpoints[pos]? = pm.endpoints[pos]?) :
    ∃ e, pm.endpoints[(pm.endpointOffset + k) % pm.endpoints.length]? = some e ∧
      PoolManager.getNextEndpoint p (iterCalls p k pm)
        = (some (p.onEndpointSelected e),
           { endpoints := (iterCalls p k pm).endpoints.set
               ((pm.endpointOffset + k) % pm.endpoints.length) (p.onEndpointSelected e),
             endpointOffset := (pm.endpointOffset + k) % pm.endpoints.length + 1,
             nextEid := (iterCalls p k pm).nextEid }) := by
  have hl : 0 < pm.endpoints.length := by omega
  have hposlt : (pm.endpointOffset + k) % pm.endpoints.length < pm.endpoints.length :=
    Nat.mod_lt _ hl
  have hlook : pm.endpoints[(pm.endpointOffset + k) % pm.endpoints.length]?
      = some (pm.endpoints[(pm.endpointOffset + k) % pm.endpoints.length]) :=
    List.getElem?_eq_getElem hposlt
  have husable :
      p.isInPool (pm.endpoints[(pm.endpointOffset + k) % pm.endpoints.length])
        = true :=
    hus _ (List.getElem_mem _)
  have hnotmod : ∀ j, j < k → (pm.endpointOffset + j) % pm.endpoints.length
      ≠ (pm.endpointOffset + k) % pm.endpoints.length := by
    intro j hj heq
    have := mod_shift_inj pm.endpointOffset pm.endpoints.length j k (by omega) hk heq
    omega
  have hlookk : (iterCalls p k pm).endpoints[(pm.endpointOffset + k)
      % pm.endpoints.length]?
      = some (pm.endpoints[(pm.endpointOffset + k) % pm.endpoints.length]) := by
    rw [hpres _ hnotmod]
    exact hlook
  have hscanlook : (iterCalls p k pm).endpoints[((iterCalls p k pm).endpointOffset + 0 + 0)
      % (iterCalls p k pm).endpoints.length]?
      = some (pm.endpoints[(pm.endpointOffset + k) % pm.endpoints.length]) := by
    simp only [Nat.add_zero]
    rw [hlen, hcur]
    exact hlookk
  have hscan := scanFrom_first p (iterCalls p k pm).endpoints
    (iterCalls p k pm).endpointOffset 0 0 (iterCalls p k pm).endpoints.length
    (pm.endpoints[(pm.endpointOffset + k) % pm.endpoints.length])
    (by omega) (fun d hd => absurd hd (Nat.not_lt_zero d)) hscanlook husable
  refine ⟨pm.endpoints[(pm.endpointOffset + k) % pm.endpoints.length], hlook, ?_⟩
  unfold PoolManager.getNextEndpoint
  simp only [hscan]
  simp only [hscanlook]
  simp only [Nat.add_zero, hlen, hcur]

theorem roundRobin_inv (p : Policy) (pm : PoolManager)
    (hus : ∀ e ∈ pm.endpoints, p.isInPool e = true) :
    ∀ k, k ≤ pm.endpoints.length →
      (iterCalls p k pm).endpoints.length = pm.endpoints.length ∧
      (iterCalls p k pm).endpointOffset % pm.endpoints.length
        = (pm.endpointOffset + k) % pm.endpoints.length ∧
      (∀ pos, (∀ j, j < k → (pm.endpointOffset + j) % pm.endpoints.length ≠ pos) →
        (iterCalls p k pm).endpoints[pos]? = pm.endpoints[pos]?) := by
  intro k
  induction k with
  | zero =>
      intro _
      exact ⟨rfl, by simp [iterCalls], fun pos _ => rfl⟩
  | succ k ih =>
      intro hk
      obtain ⟨ihlen, ihcur, ihpres⟩ := ih (by omega)
      obtain ⟨e, hlook, hstep⟩ := roundRobin_step p pm hus k (by omega) ihlen ihcur ihpres
      have hit : iterCalls p (k + 1) pm
          = (PoolManager.getNextEndpoint p (iterCalls p k pm)).2 := rfl
      rw [hit, hstep]
      refine ⟨by simp [ihlen], ?_, ?_⟩
      · show ((pm.endpointOffset + k) % pm.endpoints.length + 1) % pm.endpoints.length = _
        rw [Nat.mod_add_mod, Nat.add_assoc]
      · intro pos hpos
        show ((iterCalls p k pm).endpoints.set
            ((pm.endpointOffset + k) % pm.endpoints.length) (p.onEndpointSelected e))[pos]?
          = pm.endpoints[pos]?
        rw [List.getElem?_set_ne (hpos k (by omega))]
        exact ihpres pos (fun j hj => hpos j (by omega))

/-- C2: getNextEndpoint on an empty pool returns none without changing the
manager; if no endpoint is usable it returns none after one full pass; when
j is the first scan step whose candidate (at offset cursor + j modulo
length) is usable, it applies the on-selected side effect, stores the result
at that offset, advances the cursor to one past the selected offset and
returns the endpoint.  For a pool of all-usable endpoints, the k-th of
length-many consecutive calls returns the endpoint at offset cursor + k
modulo length (each endpoint exactly once, in rotation order: those offsets
are pairwise distinct). -/
theorem c2_getNextEndpoint_spec :
    (∀ (p : Policy) (pm : PoolManager), pm.endpoints.length = 0 →
        PoolManager.getNextEndpoint p pm = (none, pm)) ∧
    (∀ (p : Policy) (pm : PoolManager),
        (∀ e ∈ pm.endpoints, p.isInPool e = false) →
        PoolManager.getNextEndpoint p pm = (none, pm)) ∧
    (∀ (p : Policy) (pm : PoolManager) (j : Nat) (e : Endpoint),
        j < pm.endpoints.length →
        (∀ d, d < j → ∀ e1,
          pm.endpoints[(pm.endpointOffset + d) % pm.endpoints.length]? = some e1 →
          p.isInPool e1 = false) →
        pm.endpoints[(pm.endpointOffset + j) % pm.endpoints.length]? = some e →
        p.isInPool e = true →
        PoolManager.getNextEndpoint p pm
          = (some (p.onEndpointSelected e),
             { endpoints := pm.endpoints.set
                 ((pm.endpointOffset + j) % pm.endpoints.length) (p.onEndpointSelected e),
               endpointOffset := (pm.endpointOffset + j) % pm.endpoints.length + 1,
               nextEid := pm.nextEid })) ∧
    (∀ (p : Policy) (pm : PoolManager) (k : Nat),
        (∀ e ∈ pm.endpoints, p.isInPool e = true) → k < pm.endpoints.length →
        ∃ e, pm.endpoints[(pm.endpointOffset + k) % pm.endpoints.length]? = some e ∧
          (PoolManager.getNextEndpoint p (iterCalls p k pm)).1
            = some (p.onEndpointSelected e)) ∧
    (∀ (c l k1 k2 : Nat), k1 < l → k2 < l → k1 ≠ k2 →
        (c + k1) % l ≠ (c + k2) % l) := by
  refine ⟨?_, ?_, ?_, ?_, ?_⟩
  · intro p pm hlen
    unfold PoolManager.getNextEndpoint
    rw [hlen]
    rfl
  · intro p pm hnone
    unfold PoolManager.getNextEndpoint
    have hscan : scanFrom p pm.endpoints pm.endpointOffset 0 pm.endpoints.length = none := by
      apply scanFrom_none
      intro d hd e hlook
      exact hnone e (List.getElem?_mem hlook)
    rw [hscan]
  · intro p pm j e hj hbelow hlook hin
    have hbelow0 : ∀ d, d < j → ∀ e1,
        pm.endpoints[(pm.endpointOffset + 0 + d) % pm.endpoints.length]? = some e1 →
        p.isInPool e1 = false := by
      intro d hd e1 h1
      rw [Nat.add_zero] at h1
      exact hbelow d hd e1 h1
    have hlook0 : pm.endpoints[(pm.endpointOffset + 0 + j) % pm.endpoints.length]?
        = some e := by
      rw [Nat.add_zero]
      exact hlook
    have hscan := scanFrom_first p pm.endpoints pm.endpointOffset j 0
      pm.endpoints.length e hj hbelow0 hlook0 hin
    rw [Nat.add_zero] at hscan
    unfold PoolManager.getNextEndpoint
    simp only [hscan, hlook]
  · intro p pm k hus hk
    obtain ⟨ihlen, ihcur, ihpres⟩ := roundRobin_inv p pm hus k (by omega)
    obtain ⟨e, hlook, hstep⟩ := roundRobin_step p pm hus k hk ihlen ihcur ihpres
    exact ⟨e, hlook, by rw [hstep]⟩
  · intro c l k1 k2 h1 h2 hne heq
    exact hne (mod_shift_inj c l k1 k2 h1 h2 heq)

/-- C2 witness: the selection spec applied to the empty pool and the
rotation property applied to a two-endpoint all-usable pool at k = 1. -/
theorem c2_witness :
    (([] : List Endpoint).length = 0 ∧
      PoolManager.getNextEndpoint (rollingPolicy 2) ⟨[], 0, 0⟩ = (none, ⟨[], 0, 0⟩)) ∧
    ((∀ e ∈ [sampleA, sampleB], (rollingPolicy 2).isInPool e = true) ∧
      (1 : Nat) < 2 ∧
      ∃ e, ([sampleA, sampleB] : List Endpoint)[(0 + 1) % 2]? = some e ∧
        (PoolManager.getNextEndpoint (rollingPolicy 2)
          (iterCalls (rollingPolicy 2) 1 ⟨[sampleA, sampleB], 0, 2⟩)).1
          = some ((rollingPolicy 2).onEndpointSelected e)) :=
  ⟨⟨rfl, c2_getNextEndpoint_spec.1 (rollingPolicy 2) ⟨[], 0, 0⟩ rfl⟩,
   ⟨by decide, by decide,
    c2_getNextEndpoint_spec.2.2.2.1 (rollingPolicy 2) ⟨[sampleA, sampleB], 0, 2⟩ 1
      (by decide) (by decide)⟩⟩

theorem findWhereUrl_sound (u : String) :
    ∀ ns : List Endpoint, ∀ m, findWhereUrl u ns = some m → m ∈ ns ∧ m.url = u := by
  intro ns
  induction ns with
  | nil =>
      intro m h
      cases h
  | cons e rest ih =>
      intro m h
      rw [findWhereUrl] at h
      by_cases he : e.url = u
      · rw [if_pos (by simpa using he)] at h
        injection h with h
        exact ⟨h ▸ List.mem_cons_self e rest, h ▸ he⟩
      · rw [if_neg (by simpa using he)] at h
        obtain ⟨hm, hu⟩ := ih m h
        exact ⟨List.mem_cons_of_mem e hm, hu⟩

theorem findWhereUrl_complete (u : String) :
    ∀ ns : List Endpoint, (∃ m ∈ ns, m.url = u) → ∃ r, findWhereUrl u ns = some r := by
  intro ns
  induction ns with
  | nil =>
      rintro ⟨m, hm, _⟩
      cases hm
  | cons e rest ih =>
      rintro ⟨m, hm, hu⟩
      rw [findWhereUrl]
      by_cases he : e.url = u
      · rw [if_pos (by simpa using he)]
        exact ⟨e, rfl⟩
      · rw [if_neg (by simpa using he)]
        apply ih
        rcases List.mem_cons.1 hm with h | h
        · exact absurd (h ▸ hu) he
        · exact ⟨m, h, hu⟩

theorem reconcileRev_news_sublist :
    ∀ (ex ns : List Endpoint), (reconcileRev ex ns).2.Sublist ns := by
  intro ex
  induction ex with
  | nil => intro ns; exact List.Sublist.refl ns
  | cons e rest ih =>
      intro ns
      rw [reconcileRev]
      cases hf : findWhereUrl e.url (reconcileRev rest ns).2 with
      | none => exact ih ns
      | some m =>
          simp only
          exact ((List.filter_sublist _).trans (ih ns))

theorem reconcileRev_survivors_sublist :
    ∀ (ex ns : List Endpoint), (reconcileRev ex ns).1.Sublist ex := by
  intro ex
  induction ex with
  | nil => intro ns; exact List.Sublist.refl []
  | cons e rest ih =>
      intro ns
      rw [reconcileRev]
      cases hf : findWhereUrl e.url (reconcileRev rest ns).2 with
      | none => exact (ih ns).trans (List.sublist_cons_self e rest)
      | some m => exact List.Sublist.cons₂ e (ih ns)

theorem reconcileRev_news_mem :
    ∀ (ex ns : List Endpoint) (m : Endpoint), m ∈ ns →
      (∀ x ∈ ex, x.url ≠ m.url) → m ∈ (reconcileRev ex ns).2 := by
  intro ex
  induction ex with
  | nil =>
      intro ns m hm _
      exact hm
  | cons e rest ih =>
      intro ns m hm hne
      rw [reconcileRev]
      have hmem : m ∈ (reconcileRev rest ns).2 :=
        ih ns m hm (fun x hx => hne x (List.mem_cons_of_mem e hx))
      cases hf : findWhereUrl e.url (reconcileRev rest ns).2 with
      | none => exact hmem
      | some mm =>
          simp only [without]
          rw [List.mem_filter]
          refine ⟨hmem, ?_⟩
          have hmm := findWhereUrl_sound e.url _ mm hf
          have : m ≠ mm := by
            intro hcontr
            have := hne e (List.mem_cons_self e rest)
            rw [hcontr, hmm.2] at this
            exact this rfl
          simpa using this

theorem reconcileRev_survivor_origin :
    ∀ (ex ns : List Endpoint) (x : Endpoint), x ∈ (reconcileRev ex ns).1 →
      x ∈ ex ∧ ∃ m ∈ ns, m.url = x.url := by
  intro ex
  induction ex with
  | nil =>
      intro ns x hx
      cases hx
  | cons e rest ih =>
      intro ns x hx
      rw [reconcileRev] at hx
      cases hf : findWhereUrl e.url (reconcileRev rest ns).2 with
      | none =>
          rw [hf] at hx
          obtain ⟨h1, h2⟩ := ih ns x hx
          exact ⟨List.mem_cons_of_mem e h1, h2⟩
      | some m =>
          rw [hf] at hx
          simp only [List.mem_cons] at hx
          rcases hx with hx | hx
          · subst hx
            have hm := findWhereUrl_sound x.url _ m hf
            exact ⟨List.mem_cons_self x rest,
              m, (reconcileRev_news_sublist rest ns).subset hm.1, hm.2⟩
          · obtain ⟨h1, h2⟩ := ih ns x hx
            exact ⟨List.mem_cons_of_mem e h1, h2⟩

theorem reconcileRev_keeps :
    ∀ (ex ns : List Endpoint), ex.Pairwise (fun a b => a.url ≠ b.url) →
      ∀ e ∈ ex, (∃ m ∈ ns, m.url = e.url) → e ∈ (reconcileRev ex ns).1 := by
  intro ex
  induction ex with
  | nil =>
      intro ns _ e he
      cases he
  | cons x rest ih =>
      intro ns hdist e he hmatch
      have hdist1 := (List.pairwise_cons.1 hdist).1
      have hdist2 := (List.pairwise_cons.1 hdist).2
      rw [reconcileRev]
      rcases List.mem_cons.1 he with rfl | hin
      · obtain ⟨m, hm, hmu⟩ := hmatch
        have hm2 : m ∈ (reconcileRev rest ns).2 := by
          apply reconcileRev_news_mem rest ns m hm
          intro y hy
          rw [hmu]
          exact fun hc => (hdist1 y hy) hc.symm
        obtain ⟨r, hr⟩ := findWhereUrl_complete e.url _ ⟨m, hm2, hmu⟩
        rw [hr]
        exact List.mem_cons_self e _
      · have hsub := ih ns hdist2 e hin hmatch
        cases hf : findWhereUrl x.url (reconcileRev rest ns).2 with
        | none => exact hsub
        | some m => exact List.mem_cons_of_mem x hsub

theorem newEndpointsOf_mem (n : Nat) (infos : List EndpointInfo) (m : Endpoint)
    (hm : m ∈ newEndpointsOf n infos) :
    ∃ d ∈ infos, m.url = EndpointInfo.url d ∧ n ≤ m.eid := by
  obtain ⟨q, hq, rfl⟩ := List.mem_map.1 hm
  obtain ⟨_, hd⟩ := List.of_mem_zip hq
  exact ⟨q.2, hd, rfl, Nat.le_add_right n q.1⟩

theorem newEndpointsOf_getElem (n : Nat) (infos : List EndpointInfo) (i : Nat)
    (h : i < infos.length) :
    Endpoint.make infos[i] (n + i) ∈ newEndpointsOf n infos := by
  have hlen : ((List.range infos.length).zip infos).length = infos.length := by simp
  have hlen2 : (newEndpointsOf n infos).length = infos.length := by
    simp [newEndpointsOf]
  have hz : ((List.range infos.length).zip infos)[i] = (i, infos[i]) := by
    rw [List.getElem_zip, List.getElem_range]
  have hval : (newEndpointsOf n infos)[i] = Endpoint.make infos[i] (n + i) := by
    simp only [newEndpointsOf, List.getElem_map, hz]
  rw [← hval]
  exact List.getElem_mem _

/-- C1 counterexample: when two endpoints in the pool share the identity
a:1 (reachable by a refresh that carried duplicate descriptors), a refresh
containing that identity once keeps only the later endpoint: the walk runs
from the last index down and consumes the single matching candidate there,
so the earlier endpoint is removed even though its identity matches an
incoming descriptor. -/
theorem c1_counterexample :
    (PoolManager.updateEndpoints (rollingPolicy 2) ⟨[sampleA, sampleA2], 0, 3⟩
        [⟨"a", 1⟩]).endpoints = [sampleA2] ∧
    sampleA.url = EndpointInfo.url ⟨"a", 1⟩ ∧
    sampleA ∉ (PoolManager.updateEndpoints (rollingPolicy 2) ⟨[sampleA, sampleA2], 0, 3⟩
        [⟨"a", 1⟩]).endpoints :=
  ⟨by decide, by decide, by decide⟩

/-- C1 amended: provided the existing endpoints have pairwise distinct
identities (urls) — and with fresh identities for the built candidates and
a registration hook preserving object identity — updateEndpoints keeps
every existing endpoint whose url matches an incoming descriptor unchanged,
removes every existing endpoint with no matching descriptor, registers and
appends a new endpoint for every descriptor whose url matches no existing
endpoint, and produces the survivors in their original relative order
followed by the registered new entries.  (With duplicate identities among
existing endpoints the claim fails: each candidate is consumed at most
once, scanning existing endpoints from the last to the first.) -/
theorem c1_updateEndpoints_spec (p : Policy) (pm : PoolManager)
    (infos : List EndpointInfo)
    (hdist : pm.endpoints.Pairwise (fun a b => a.url ≠ b.url))
    (heid : ∀ e ∈ pm.endpoints, e.eid < pm.nextEid)
    (hreg : ∀ x, (p.onEndpointRegistered x).eid = x.eid) :
    (∀ e ∈ pm.endpoints, (∃ d ∈ infos, EndpointInfo.url d = e.url) →
        e ∈ (PoolManager.updateEndpoints p pm infos).endpoints) ∧
    (∀ e ∈ pm.endpoints, (¬∃ d ∈ infos, EndpointInfo.url d = e.url) →
        e ∉ (PoolManager.updateEndpoints p pm infos).endpoints) ∧
    (∀ i, ∀ h : i < infos.length,
        (¬∃ e ∈ pm.endpoints, e.url = EndpointInfo.url (infos[i])) →
        p.onEndpointRegistered (Endpoint.make (infos[i]) (pm.nextEid + i))
          ∈ (PoolManager.updateEndpoints p pm infos).endpoints) ∧
    ((reconcileRev pm.endpoints (newEndpointsOf pm.nextEid infos)).1.Sublist
        pm.endpoints ∧
      (reconcileRev pm.endpoints (newEndpointsOf pm.nextEid infos)).2.Sublist
        (newEndpointsOf pm.nextEid infos) ∧
      (PoolManager.updateEndpoints p pm infos).endpoints
        = (reconcileRev pm.endpoints (newEndpointsOf pm.nextEid infos)).1
          ++ (reconcileRev pm.endpoints (newEndpointsOf pm.nextEid infos)).2.map
              p.onEndpointRegistered) := by
  refine ⟨?_, ?_, ?_, ?_⟩
  · rintro e he ⟨d, hd, hdu⟩
    obtain ⟨i, hi, rfl⟩ := List.mem_iff_getElem.1 hd
    have hmem := newEndpointsOf_getElem pm.nextEid infos i hi
    have hsurv : e ∈ (reconcileRev pm.endpoints (newEndpointsOf pm.nextEid infos)).1 := by
      apply reconcileRev_keeps pm.endpoints _ hdist e he
      exact ⟨Endpoint.make (infos[i]) (pm.nextEid + i), hmem, hdu⟩
    show e ∈ (reconcileRev pm.endpoints (newEndpointsOf pm.nextEid infos)).1
      ++ (reconcileRev pm.endpoints (newEndpointsOf pm.nextEid infos)).2.map
          p.onEndpointRegistered
    exact List.mem_append_left _ hsurv
  · intro e he hno hcontr
    have hcontr' : e ∈ (reconcileRev pm.endpoints (newEndpointsOf pm.nextEid infos)).1
        ++ (reconcileRev pm.endpoints (newEndpointsOf pm.nextEid infos)).2.map
            p.onEndpointRegistered := hcontr
    rcases List.mem_append.1 hcontr' with hs | hr
    · obtain ⟨_, m, hmns, hmu⟩ := reconcileRev_survivor_origin pm.endpoints _ e hs
      obtain ⟨d, hd, hdurl, _⟩ := newEndpointsOf_mem pm.nextEid infos m hmns
      exact hno ⟨d, hd, by rw [← hdurl, hmu]⟩
    · obtain ⟨m, hmfresh, hme⟩ := List.mem_map.1 hr
      have hmns : m ∈ newEndpointsOf pm.nextEid infos :=
        (reconcileRev_news_sublist pm.endpoints _).subset hmfresh
      obtain ⟨d, hd, _, hle⟩ := newEndpointsOf_mem pm.nextEid infos m hmns
      have h1 : e.eid = m.eid := by rw [← hme, hreg m]
      have h2 := heid e he
      omega
  · intro i h hno
    have hmem := newEndpointsOf_getElem pm.nextEid infos i h
    have hfresh : Endpoint.make (infos[i]) (pm.nextEid + i)
        ∈ (reconcileRev pm.endpoints (newEndpointsOf pm.nextEid infos)).2 := by
      apply reconcileRev_news_mem pm.endpoints _ _ hmem
      intro x hx hc
      exact hno ⟨x, hx, hc⟩
    show p.onEndpointRegistered (Endpoint.make (infos[i]) (pm.nextEid + i))
      ∈ (reconcileRev pm.endpoints (newEndpointsOf pm.nextEid infos)).1
        ++ (reconcileRev pm.endpoints (newEndpointsOf pm.nextEid infos)).2.map
            p.onEndpointRegistered
    exact List.mem_append_right _ (List.mem_map_of_mem p.onEndpointRegistered hfresh)
  · exact ⟨reconcileRev_survivors_sublist _ _, reconcileRev_news_sublist _ _, rfl⟩

/-- C1 witness: a pool of two distinct-identity endpoints refreshed with
one surviving descriptor and one new descriptor: the matching endpoint is
kept as-is and the new descriptor produces a registered appended entry. -/
theorem c1_witness :
    ([sampleA, sampleB] : List Endpoint).Pairwise (fun a b => a.url ≠ b.url) ∧
    (∀ e ∈ ([sampleA, sampleB] : List Endpoint), e.eid < 2) ∧
    sampleA ∈ (PoolManager.updateEndpoints (rollingPolicy 2)
        ⟨[sampleA, sampleB], 0, 2⟩ [⟨"a", 1⟩, ⟨"c", 3⟩]).endpoints ∧
    (rollingPolicy 2).onEndpointRegistered (Endpoint.make ⟨"c", 3⟩ (2 + 1))
      ∈ (PoolManager.updateEndpoints (rollingPolicy 2)
          ⟨[sampleA, sampleB], 0, 2⟩ [⟨"a", 1⟩, ⟨"c", 3⟩]).endpoints :=
  ⟨by decide, by decide,
   (c1_updateEndpoints_spec (rollingPolicy 2) ⟨[sampleA, sampleB], 0, 2⟩
      [⟨"a", 1⟩, ⟨"c", 3⟩] (by decide) (by decide) (fun _ => rfl)).1
     sampleA (by decide) ⟨⟨"a", 1⟩, by decide, by decide⟩,
   (c1_updateEndpoints_spec (rollingPolicy 2) ⟨[sampleA, sampleB], 0, 2⟩
      [⟨"a", 1⟩, ⟨"c", 3⟩] (by decide) (by decide) (fun _ => rfl)).2.2.1
     1 (by decide) (by decide)⟩

end DnsEndpointPool
